import Mathlib

/-!
Verification of the device-capture protocol core of the medscope frontend
(`src/app/pharyngoscopy.tsx`): the terminator scanner, the streaming frame
assembler, the capture command sequence, the TCP listener's connection
handling, and the inference-result processing.

Bytes are modelled as `Nat` (the source reads them out of a `Uint8Array`;
no claim depends on the 0..255 range).  The stateful accumulator
`receivedData` is modelled by explicit state passing: one call of the
`data` handler is `feed buf chunk`, returning the new buffer and the
outcome of that call.
-/

/-- `IMAGE_WIDTH` from the source (line 31). -/
def IMAGE_WIDTH : Nat := 320

/-- `IMAGE_HEIGHT` from the source (line 32). -/
def IMAGE_HEIGHT : Nat := 320

/-- `expectedSize = IMAGE_WIDTH * IMAGE_HEIGHT * 2`, the safety bound the
source checks against the accumulated buffer (line 305). -/
def maxExpectedSize : Nat := IMAGE_WIDTH * IMAGE_HEIGHT * 2

/-- `TERMINATOR = new Uint8Array([0xff, 0xbb])` (line 30). -/
def TERMINATOR : List Nat := [0xff, 0xbb]

/-- The scan loop of `findTerminatorIndex` (lines 324-331), returning the
index of the first position whose byte is `0xff` and whose successor byte
is `0xbb`, as an `Option Nat`.  The loop
`for (i = 0; i < data.length - 1; i++)` visits exactly the positions that
have a successor, in increasing order, and returns the first hit. -/
def findTermIdx : List Nat → Option Nat
  | a :: b :: rest =>
      if a = 0xff ∧ b = 0xbb then some 0
      else (findTermIdx (b :: rest)).map (· + 1)
  | _ => none

/-- `findTerminatorIndex` as the source returns it: the found index, or
`-1` when the scan falls through (line 330). -/
def findTerminatorIndex (data : List Nat) : Int :=
  match findTermIdx data with
  | some i => (i : Int)
  | none => -1

/-- The terminator pattern occurs at index `i` of `l`:
`l[i] == TERMINATOR[0] && l[i+1] == TERMINATOR[1]` (line 326). -/
def isTermAt (l : List Nat) (i : Nat) : Prop :=
  l.get? i = some 0xff ∧ l.get? (i + 1) = some 0xbb

instance (l : List Nat) (i : Nat) : Decidable (isTermAt l i) := by
  unfold isTermAt; infer_instance

/-- Result of one call of the `data` handler `handleReceivedImageData`
(lines 254-321), as the spec's Frame Assembler names its outcomes:
a completed frame (terminator found: header `newData[0:8]`, payload
`newData.slice(8, terminatorIndex)`), a corrupt reset (no terminator but
`newData.length >= expectedSize`, lines 303-314), or an incomplete
accumulation. -/
inductive FrameOutcome
  | incomplete
  | complete (header payload : List Nat)
  | corrupt
deriving DecidableEq, Repr

/-- The body of `handleReceivedImageData` acting on the concatenated data
`newData` (lines 264-314): check for the terminator first; on a hit,
reset the buffer and emit the frame with header `newData[0:8]` and
payload `newData.slice(8, i)` (which clamps when `i < 8`); otherwise
reset on the size bound, or keep accumulating. -/
def feedData (newData : List Nat) : List Nat × FrameOutcome :=
  match findTermIdx newData with
  | some i => ([], FrameOutcome.complete (newData.take 8) ((newData.take i).drop 8))
  | none =>
      if maxExpectedSize ≤ newData.length then ([], FrameOutcome.corrupt)
      else (newData, FrameOutcome.incomplete)

/-- One call of `handleReceivedImageData data` with current accumulator
`buf`: the source first appends `data` to `receivedData` (lines 259-262)
and then processes the concatenation. -/
def feed (buf chunk : List Nat) : List Nat × FrameOutcome :=
  feedData (buf ++ chunk)

/-- Feeding a sequence of chunks in order, starting from buffer `buf`;
the returned outcome is that of the last chunk fed (an empty sequence
leaves the buffer as is, with nothing to report). -/
def feedChunks : List (List Nat) → List Nat → List Nat × FrameOutcome
  | [], buf => (buf, FrameOutcome.incomplete)
  | [c], buf => feed buf c
  | c :: c' :: cs, buf => feedChunks (c' :: cs) (feed buf c).1

/-- The byte-at-a-time chunking of a byte sequence. -/
def byteChunks (b : List Nat) : List (List Nat) :=
  b.map (fun x => [x])

/-- Header of the concrete oversized frame used against claim C5: 8 zero
bytes. -/
def c5Header : List Nat := List.replicate 8 0

/-- Payload of the concrete oversized frame used against claim C5: 204791
zero bytes, so that header + payload + first terminator byte is exactly
`maxExpectedSize = 204800` bytes long. -/
def c5Payload : List Nat := List.replicate 204791 0

/-- A chunking of `c5Header ++ c5Payload ++ TERMINATOR` that splits
between the two terminator bytes. -/
def c5Chunks : List (List Nat) :=
  [List.replicate 204799 0 ++ [0xff], [0xbb]]

/-- One scheduled socket write: the delay (in milliseconds, relative to the
start of the capture request) after which it happens, and the bytes
written. -/
structure TimedWrite where
  delayMs : Nat
  bytes : List Nat
deriving DecidableEq, Repr

/-- `resolutionCommand = new Uint8Array([0x01, 0x18])` (line 348): opcode
`0x01` followed by the resolution-selector byte `0x18`. -/
def resolutionCommand : List Nat := [0x01, 0x18]

/-- `captureCommand = new Uint8Array([0x10])` (line 355). -/
def captureCommand : List Nat := [0x10]

/-- The socket writes performed by `handleCapture` (lines 334-369): when
not connected or without a client socket it alerts and returns without
writing; otherwise it writes the resolution command immediately and
schedules the capture command 500 ms later via `setTimeout`. -/
def handleCapture (isConnected : Bool) (hasClientSocket : Bool) : List TimedWrite :=
  if !isConnected || !hasClientSocket then []
  else [⟨0, resolutionCommand⟩, ⟨500, captureCommand⟩]

/-- The listener state tracked by the screen: the `isConnected` flag and
the `clientSocket` reference (lines 70-72), with sockets identified by a
numeric id. -/
structure ListenerState where
  isConnected : Bool
  clientSocket : Option Nat
deriving DecidableEq, Repr

/-- Listener state before any client connects. -/
def listenerStart : ListenerState :=
  { isConnected := false, clientSocket := none }

/-- An action the server could take against a socket; the connection
handler of the source performs none (it never closes or rejects a
socket). -/
inductive ServerAction
  | closeSocket (sid : Nat)
deriving DecidableEq, Repr

/-- The `TcpSocket.createServer` connection callback (lines 206-228): it
unconditionally sets `isConnected` to true and `clientSocket` to the new
socket, registers the data/error/close handlers on it, and returns.  It
never inspects the previous state and emits no close against either
socket. -/
def onClientConnected (_st : ListenerState) (sid : Nat) :
    ListenerState × List ServerAction :=
  ({ isConnected := true, clientSocket := some sid }, [])

/-- The socket `close` and `error` handlers (lines 217-227): both clear
the connected flag and the socket reference. -/
def onClientClosed (_st : ListenerState) : ListenerState :=
  { isConnected := false, clientSocket := none }

/-- One entry of the `predictions` list of the inference API response
(lines 51-57).  The JSON field `class` is rendered `cls` (a Lean
keyword); the confidence score is modelled as a rational. -/
structure Prediction where
  cls : String
  class_id : Nat
  confidence : ℚ
deriving DecidableEq

/-- The diagnosis record the screen stores with a capture (lines 44-48,
414-418). -/
structure Diagnosis where
  result : String
  confidence : ℚ
  isHealthy : Bool
deriving DecidableEq

/-- Outcome of the `await axios(...)` call in `processCapturedImage`
(lines 392-402): the parsed response data on fulfilment, or a rejection
(network failure or non-2xx status). -/
inductive InferenceResponse
  | ok (predictions : List Prediction)
  | err
deriving DecidableEq

/-- What one run of `processCapturedImage` does with the capture:
`savedWithDiagnosis d` when it calls `saveImageToDevice` with diagnosis
`d` and presents the result modal, `silent` when it persists nothing and
presents nothing.  `inferenceError` is modelled from the spec: the tagged
failure condition the spec's error taxonomy expects for a failed
collaborator call; the source has no corresponding branch (claim C3). -/
inductive CaptureOutcome
  | savedWithDiagnosis (d : Diagnosis)
  | silent
  | inferenceError
deriving DecidableEq

/-- The mock result fabricated in the catch block (lines 430-433):
`class` is drawn by `Math.random() > 0.5 ? "no" : "phar"` (the draw is
modelled by `coin`) and `confidence` is `Math.random() * 0.3 + 0.7` (the
second draw is modelled by `r`). -/
structure MockResult where
  cls : String
  confidence : ℚ
deriving DecidableEq

def mockResult (coin : Bool) (r : ℚ) : MockResult :=
  { cls := if coin then "no" else "phar", confidence := r * (3 / 10) + 7 / 10 }

/-- `processCapturedImage` (lines 372-451), as a function of the
inference call's outcome and the two random draws of the catch block.
On a fulfilled response with a non-empty `predictions` list it builds the
diagnosis from `predictions[0]` and saves/presents it (lines 411-425); on
an empty list it does nothing further; on a rejected call it builds the
mock diagnosis and saves/presents that (lines 426-448). -/
def processCapturedImage (resp : InferenceResponse) (coin : Bool) (r : ℚ) :
    CaptureOutcome :=
  match resp with
  | InferenceResponse.ok preds =>
      match preds with
      | [] => CaptureOutcome.silent
      | p :: _ =>
          CaptureOutcome.savedWithDiagnosis
            { result := p.cls, confidence := p.confidence, isHealthy := p.cls == "no" }
  | InferenceResponse.err =>
      let m := mockResult coin r
      CaptureOutcome.savedWithDiagnosis
        { result := m.cls, confidence := m.confidence, isHealthy := m.cls == "no" }

theorem isTermAt_cons_succ (a : Nat) (l : List Nat) (j : Nat) :
    isTermAt (a :: l) (j + 1) ↔ isTermAt l j := by
  simp [isTermAt, List.get?]

theorem isTermAt_zero (a b : Nat) (rest : List Nat) :
    isTermAt (a :: b :: rest) 0 ↔ a = 0xff ∧ b = 0xbb := by
  simp [isTermAt, List.get?]

theorem not_isTermAt_nil (j : Nat) : ¬ isTermAt [] j := by
  simp [isTermAt]

theorem not_isTermAt_single (a j : Nat) : ¬ isTermAt [a] j := by
  cases j <;> simp [isTermAt, List.get?]

theorem isTermAt_lt (l : List Nat) (j : Nat) (h : isTermAt l j) :
    j + 1 < l.length := by
  by_contra hlt
  have hnone : l.get? (j + 1) = none := List.get?_eq_none.mpr (Nat.le_of_not_lt hlt)
  rw [h.2] at hnone
  exact Option.noConfusion hnone

theorem isTermAt_of_take (l : List Nat) (m j : Nat) (h : isTermAt (l.take m) j) :
    isTermAt l j := by
  refine ⟨?_, ?_⟩
  · have := h.1
    rwa [List.get?_take (by
      have := isTermAt_lt _ _ h
      simp [List.length_take] at this
      omega)] at this
  · have := h.2
    rwa [List.get?_take (by
      have := isTermAt_lt _ _ h
      simp [List.length_take] at this
      omega)] at this

theorem findTermIdx_isTermAt (l : List Nat) :
    ∀ i, findTermIdx l = some i → isTermAt l i := by
  induction l with
  | nil => intro i h; simp [findTermIdx] at h
  | cons a l ih =>
    intro i h
    cases l with
    | nil => simp [findTermIdx] at h
    | cons b rest =>
      simp only [findTermIdx] at h
      by_cases hab : a = 0xff ∧ b = 0xbb
      · rw [if_pos hab] at h
        obtain rfl : (0 : Nat) = i := by simpa using h
        exact (isTermAt_zero a b rest).mpr hab
      · rw [if_neg hab] at h
        rcases Option.map_eq_some'.mp h with ⟨i', hi', rfl⟩
        exact (isTermAt_cons_succ a (b :: rest) i').mpr (ih i' hi')

theorem findTermIdx_none_not_isTermAt (l : List Nat) :
    findTermIdx l = none → ∀ j, ¬ isTermAt l j := by
  induction l with
  | nil => intro _ j; exact not_isTermAt_nil j
  | cons a l ih =>
    intro h j hj
    cases l with
    | nil => exact not_isTermAt_single a j hj
    | cons b rest =>
      simp only [findTermIdx] at h
      by_cases hab : a = 0xff ∧ b = 0xbb
      · rw [if_pos hab] at h; exact Option.noConfusion h
      · rw [if_neg hab] at h
        have h' : findTermIdx (b :: rest) = none := Option.map_eq_none'.mp h
        cases j with
        | zero => exact hab ((isTermAt_zero a b rest).mp hj)
        | succ j =>
          exact ih h' j ((isTermAt_cons_succ a (b :: rest) j).mp hj)

theorem findTermIdx_least (l : List Nat) :
    ∀ i, findTermIdx l = some i → ∀ j, j < i → ¬ isTermAt l j := by
  induction l with
  | nil => intro i h; simp [findTermIdx] at h
  | cons a l ih =>
    intro i h j hj hterm
    cases l with
    | nil => simp [findTermIdx] at h
    | cons b rest =>
      simp only [findTermIdx] at h
      by_cases hab : a = 0xff ∧ b = 0xbb
      · rw [if_pos hab] at h
        obtain rfl : (0 : Nat) = i := by simpa using h
        exact absurd hj (Nat.not_lt_zero j)
      · rw [if_neg hab] at h
        rcases Option.map_eq_some'.mp h with ⟨i', hi', rfl⟩
        cases j with
        | zero => exact hab ((isTermAt_zero a b rest).mp hterm)
        | succ j =>
          exact ih i' hi' j (Nat.lt_of_succ_lt_succ hj)
            ((isTermAt_cons_succ a (b :: rest) j).mp hterm)

theorem exists_findTermIdx_le (l : List Nat) :
    ∀ i, isTermAt l i → ∃ i₀, findTermIdx l = some i₀ ∧ i₀ ≤ i := by
  induction l with
  | nil => intro i hi; exact absurd hi (not_isTermAt_nil i)
  | cons a l ih =>
    intro i hi
    cases l with
    | nil => exact absurd hi (not_isTermAt_single a i)
    | cons b rest =>
      by_cases hab : a = 0xff ∧ b = 0xbb
      · exact ⟨0, by simp only [findTermIdx, if_pos hab], Nat.zero_le i⟩
      · cases i with
        | zero => exact absurd ((isTermAt_zero a b rest).mp hi) hab
        | succ i =>
          rcases ih i ((isTermAt_cons_succ a (b :: rest) i).mp hi) with ⟨i₀, h₀, hle⟩
          refine ⟨i₀ + 1, ?_, Nat.succ_le_succ hle⟩
          simp only [findTermIdx, if_neg hab, h₀, Option.map_some']

theorem findTermIdx_eq_some_of_least (l : List Nat) (i : Nat)
    (hi : isTermAt l i) (hleast : ∀ j, j < i → ¬ isTermAt l j) :
    findTermIdx l = some i := by
  rcases exists_findTermIdx_le l i hi with ⟨i₀, h₀, hle⟩
  rcases Nat.lt_or_ge i₀ i with hlt | hge
  · exact absurd (findTermIdx_isTermAt l i₀ h₀) (hleast i₀ hlt)
  · rwa [Nat.le_antisymm hle hge] at h₀

theorem findTermIdx_cons_of_ne (a : Nat) (l : List Nat) (ha : a ≠ 0xff) :
    findTermIdx (a :: l) = (findTermIdx l).map (· + 1) := by
  cases l with
  | nil => simp [findTermIdx]
  | cons b rest =>
    have hab : ¬ (a = 0xff ∧ b = 0xbb) := fun h => ha h.1
    simp only [findTermIdx, if_neg hab]

theorem findTermIdx_replicate_zero_append (k : Nat) (l : List Nat)
    (h : findTermIdx l = none) :
    findTermIdx (List.replicate k 0 ++ l) = none := by
  induction k with
  | zero => simpa using h
  | succ k ih =>
    rw [List.replicate_succ, List.cons_append,
      findTermIdx_cons_of_ne _ _ (by decide), ih]
    rfl

theorem findTermIdx_replicate_zero (k : Nat) :
    findTermIdx (List.replicate k 0) = none := by
  simpa using findTermIdx_replicate_zero_append k [] rfl

theorem findTermIdx_replicate_zero_term (k : Nat) :
    findTermIdx (List.replicate k 0 ++ [0xff, 0xbb]) = some k := by
  induction k with
  | zero => rfl
  | succ k ih =>
    rw [List.replicate_succ, List.cons_append,
      findTermIdx_cons_of_ne _ _ (by decide), ih]
    rfl

theorem feed_incomplete_of (buf chunk : List Nat)
    (h1 : findTermIdx (buf ++ chunk) = none)
    (h2 : (buf ++ chunk).length < maxExpectedSize) :
    feed buf chunk = (buf ++ chunk, FrameOutcome.incomplete) := by
  simp only [feed, feedData, h1]
  rw [if_neg (Nat.not_le.mpr h2)]

theorem feed_corrupt_of (buf chunk : List Nat)
    (h1 : findTermIdx (buf ++ chunk) = none)
    (h2 : maxExpectedSize ≤ (buf ++ chunk).length) :
    feed buf chunk = ([], FrameOutcome.corrupt) := by
  simp only [feed, feedData, h1]
  rw [if_pos h2]

theorem feed_complete_of (buf chunk : List Nat) (i : Nat)
    (h : findTermIdx (buf ++ chunk) = some i) :
    feed buf chunk =
      ([], FrameOutcome.complete ((buf ++ chunk).take 8)
        (((buf ++ chunk).take i).drop 8)) := by
  simp only [feed, feedData, h]

theorem feedChunks_eq_feed_join :
    ∀ (cs : List (List Nat)) (buf : List Nat), cs ≠ [] →
      (∀ k, 0 < k → k < cs.length →
        findTermIdx (buf ++ ((cs.take k).flatten)) = none ∧
        (buf ++ ((cs.take k).flatten)).length < maxExpectedSize) →
      feedChunks cs buf = feed buf cs.flatten := by
  intro cs
  induction cs with
  | nil => intro buf h; exact absurd rfl h
  | cons c cs ih =>
    intro buf _ hk
    cases cs with
    | nil =>
      show feed buf c = feed buf ([c].flatten)
      simp
    | cons c' cs' =>
      have h1 := hk 1 (by decide) (by simp)
      simp only [List.take_succ_cons, List.take_zero, List.flatten_cons,
        List.flatten_nil, List.append_nil] at h1
      have hfeed : feed buf c = (buf ++ c, FrameOutcome.incomplete) :=
        feed_incomplete_of _ _ h1.1 h1.2
      have hih := ih (buf ++ c) (by simp) (fun k hk0 hklen => by
        have h2 := hk (k + 1) (Nat.succ_pos k) (by
          simp only [List.length_cons] at hklen ⊢
          omega)
        simpa [List.append_assoc] using h2)
      calc feedChunks (c :: c' :: cs') buf
          = feedChunks (c' :: cs') (feed buf c).1 := by simp [feedChunks]
        _ = feedChunks (c' :: cs') (buf ++ c) := by rw [hfeed]
        _ = feed (buf ++ c) ((c' :: cs').flatten) := hih
        _ = feed buf ((c :: c' :: cs').flatten) := by
            simp [feed, List.append_assoc]

theorem byteChunks_join (b : List Nat) : (byteChunks b).flatten = b := by
  induction b with
  | nil => rfl
  | cons x b ih =>
    show ([x] :: byteChunks b).flatten = x :: b
    simp only [List.flatten_cons, List.singleton_append, ih]

theorem byteChunks_take (b : List Nat) (k : Nat) :
    (byteChunks b).take k = byteChunks (b.take k) := by
  simp [byteChunks, List.map_take]

theorem byteChunks_length (b : List Nat) : (byteChunks b).length = b.length := by
  simp [byteChunks]


/-- Claim C4: `findTerminatorIndex` returns the lowest index `i` with
`bytes[i] = 0xFF` and `bytes[i+1] = 0xBB`, and `-1` exactly when no such
index exists.  In particular a coincidental occurrence of the pattern
before the real terminator is the one reported (the scan is lowest-first). -/
theorem findTerminatorIndex_least_match (d : List Nat) :
    (findTerminatorIndex d = -1 ↔ ∀ j, ¬ isTermAt d j) ∧
    (∀ i : Nat, findTerminatorIndex d = (i : Int) ↔
      (isTermAt d i ∧ ∀ j, j < i → ¬ isTermAt d j)) := by
  constructor
  · constructor
    · intro h j
      cases hf : findTermIdx d with
      | none => exact findTermIdx_none_not_isTermAt d hf j
      | some i₀ =>
        exfalso
        simp only [findTerminatorIndex, hf] at h
        omega
    · intro h
      cases hf : findTermIdx d with
      | none => simp only [findTerminatorIndex, hf]
      | some i₀ => exact absurd (findTermIdx_isTermAt d i₀ hf) (h i₀)
  · intro i
    constructor
    · intro h
      cases hf : findTermIdx d with
      | none =>
        exfalso
        simp only [findTerminatorIndex, hf] at h
        omega
      | some i₀ =>
        simp only [findTerminatorIndex, hf] at h
        have hi : i₀ = i := by exact_mod_cast h
        subst hi
        exact ⟨findTermIdx_isTermAt d i₀ hf, findTermIdx_least d i₀ hf⟩
    · intro hi
      simp only [findTerminatorIndex,
        findTermIdx_eq_some_of_least d i hi.1 hi.2]

/-- Claim C6: whenever a feed makes the accumulated data reach
`maxExpectedSize` (320 × 320 × 2 bytes) or more with no terminator found,
the assembler signals the corrupt reset and its internal buffer is empty
immediately afterwards — no partial carry-over into the next capture. -/
theorem oversize_resets_corrupt (buf chunk : List Nat)
    (h1 : findTermIdx (buf ++ chunk) = none)
    (h2 : maxExpectedSize ≤ (buf ++ chunk).length) :
    feed buf chunk = ([], FrameOutcome.corrupt) :=
  feed_corrupt_of buf chunk h1 h2

/-- Witness for C6: feeding 204800 zero bytes at once triggers the
corrupt reset with an empty buffer. -/
theorem oversize_resets_corrupt_witness :
    feed [] (List.replicate maxExpectedSize 0) = ([], FrameOutcome.corrupt) :=
  oversize_resets_corrupt [] (List.replicate maxExpectedSize 0)
    (by rw [List.nil_append]; exact findTermIdx_replicate_zero maxExpectedSize)
    (by simp)

/-- Claim C7: a capture request that proceeds (connected, with a client
socket) performs exactly two writes, `SetResolution` (`0x01` then the
selector byte `0x18`) at once and `Capture` (`0x10`) 500 ms later; in
every other state it writes nothing, so the capture byte is never written
before the resolution bytes. -/
theorem capture_command_sequence (c s : Bool) :
    (c = true → s = true →
      handleCapture c s = [⟨0, resolutionCommand⟩, ⟨500, captureCommand⟩]) ∧
    (handleCapture c s ≠ [] →
      handleCapture c s = [⟨0, resolutionCommand⟩, ⟨500, captureCommand⟩]) := by
  cases c <;> cases s <;> simp [handleCapture]

/-- Claim C8 fails on the code: with a session already Connected (socket
1), a second inbound connection (socket 2) is not closed — the handler
adopts socket 2 as the live client and emits no close action. -/
theorem second_connection_accepted_cex :
    (onClientConnected listenerStart 1).1.isConnected = true ∧
    onClientConnected (onClientConnected listenerStart 1).1 2 =
      ({ isConnected := true, clientSocket := some 2 }, []) :=
  ⟨rfl, rfl⟩

/-- Claim C8 (amended): a second inbound connection while a session is
Connected is not rejected; the connection handler unconditionally marks
the listener connected, replaces the tracked client socket with the new
one, and closes nothing, so the new connection supplants the live
session instead of being closed. -/
theorem second_connection_replaces_session (st : ListenerState) (sid : Nat) :
    (onClientConnected st sid).1 =
      { isConnected := true, clientSocket := some sid } ∧
    (onClientConnected st sid).2 = [] :=
  ⟨rfl, rfl⟩

/-- Claim C9: a fulfilled inference response with a non-empty predictions
list yields a saved diagnosis built from the first prediction only (the
tail is ignored): result is its class, confidence is its confidence, and
`isHealthy` holds exactly when the class is `"no"`. -/
theorem diagnosis_from_first_prediction (p : Prediction)
    (rest : List Prediction) (coin : Bool) (r : ℚ) :
    processCapturedImage (InferenceResponse.ok (p :: rest)) coin r =
      CaptureOutcome.savedWithDiagnosis
        { result := p.cls, confidence := p.confidence,
          isHealthy := p.cls == "no" } ∧
    (∀ rest', processCapturedImage (InferenceResponse.ok (p :: rest)) coin r =
      processCapturedImage (InferenceResponse.ok (p :: rest')) coin r) ∧
    ((p.cls == "no") = true ↔ p.cls = "no") := by
  refine ⟨rfl, fun rest' => rfl, ?_⟩
  exact beq_iff_eq

/-- Claim C10: a fulfilled inference response with an empty predictions
list persists nothing and presents nothing — the capture ends silently. -/
theorem empty_predictions_silent (coin : Bool) (r : ℚ) :
    processCapturedImage (InferenceResponse.ok []) coin r =
      CaptureOutcome.silent :=
  rfl

/-- Claim C3 fails on the code: a rejected inference call is not surfaced
as a tagged failure; the catch block fabricates a mock diagnosis and the
capture is saved and presented as a success.  Here the first random draw
gives `"no"` and the second is 1/2, so the stored confidence is
`1/2 * 0.3 + 0.7 = 17/20`. -/
theorem inference_failure_mock_cex :
    processCapturedImage InferenceResponse.err true (1 / 2) =
      CaptureOutcome.savedWithDiagnosis
        { result := "no", confidence := 17 / 20, isHealthy := true } ∧
    processCapturedImage InferenceResponse.err true (1 / 2) ≠
      CaptureOutcome.inferenceError := by
  constructor
  · norm_num [processCapturedImage, mockResult]
  · simp [processCapturedImage]

/-- Claim C3 (amended): when the inference call fails, the code reports a
mock success rather than a distinct InferenceError — it saves the image
with a fabricated diagnosis drawn from the two random draws (class
`"no"` or `"phar"`, confidence `r * 0.3 + 0.7`) and never produces the
tagged failure outcome.  (The call is indeed not retried: one response is
consumed per capture.) -/
theorem inference_failure_mock_success (coin : Bool) (r : ℚ) :
    processCapturedImage InferenceResponse.err coin r =
      CaptureOutcome.savedWithDiagnosis
        { result := (mockResult coin r).cls,
          confidence := (mockResult coin r).confidence,
          isHealthy := (mockResult coin r).cls == "no" } ∧
    processCapturedImage InferenceResponse.err coin r ≠
      CaptureOutcome.inferenceError := by
  refine ⟨rfl, ?_⟩
  simp [processCapturedImage]

/-- Claim C1 fails on the code: a chunk whose terminator sits at index 0
(fewer than 8 bytes precede it) does not yield a corrupt outcome — the
slice from 8 to the terminator index clamps and the assembler completes
with an empty (zero-length) payload. -/
theorem early_terminator_cex :
    (feed [] [0xff, 0xbb]).2 = FrameOutcome.complete [0xff, 0xbb] [] ∧
    (feed [] [0xff, 0xbb]).2 ≠ FrameOutcome.corrupt := by
  constructor
  · rfl
  · decide

/-- Claim C1 (amended): a terminator found at index `i < 8` yields a
completed frame whose payload is empty — `slice(8, i)` clamps, so the
payload length is 0 and never negative — rather than a Corrupt outcome. -/
theorem early_terminator_completes_empty (buf chunk : List Nat) (i : Nat)
    (hfind : findTermIdx (buf ++ chunk) = some i) (hi : i < 8) :
    feed buf chunk =
      ([], FrameOutcome.complete ((buf ++ chunk).take 8) []) := by
  rw [feed_complete_of buf chunk i hfind]
  have hlen : ((buf ++ chunk).take i).length ≤ 8 := by
    have := List.length_take_le i (buf ++ chunk)
    omega
  rw [List.drop_eq_nil_of_le hlen]

/-- Witness for the amended C1: the terminator at index 1 of a 3-byte
buffer completes with an empty payload. -/
theorem early_terminator_completes_empty_witness :
    findTermIdx ([] ++ [0, 0xff, 0xbb]) = some 1 ∧
    feed [] [0, 0xff, 0xbb] =
      ([], FrameOutcome.complete (([] ++ [0, 0xff, 0xbb]).take 8) []) :=
  ⟨by decide, early_terminator_completes_empty [] [0, 0xff, 0xbb] 1
    (by decide) (by decide)⟩

/-- Claim C2 fails on the code: feeding `[0xFF, 0xBB, 0x00]` all at once
completes a frame (the trailing byte after the terminator is discarded),
while feeding it one byte at a time completes at the second byte and then
buffers the trailing byte, so the final outcome is Incomplete — the two
feedings disagree. -/
theorem bytewise_vs_whole_cex :
    (feedChunks (byteChunks [0xff, 0xbb, 0]) []).2 = FrameOutcome.incomplete ∧
    (feed [] [0xff, 0xbb, 0]).2 = FrameOutcome.complete [0xff, 0xbb, 0] [] ∧
    (feedChunks (byteChunks [0xff, 0xbb, 0]) []).2 ≠ (feed [] [0xff, 0xbb, 0]).2 := by
  refine ⟨rfl, rfl, ?_⟩
  decide

/-- Claim C2 (amended): byte-at-a-time feeding agrees with feeding all at
once — same final outcome, frame and buffer — provided no decisive
outcome fires strictly before the last byte, i.e. every proper prefix of
the sequence contains no terminator and the sequence is no longer than
`maxExpectedSize`.  (With trailing bytes after an early Complete or
Corrupt, the two feedings genuinely diverge.) -/
theorem bytewise_eq_whole_of_no_early_decision (b : List Nat)
    (hlen : b.length ≤ maxExpectedSize)
    (hpre : ∀ k, k < b.length → findTermIdx (b.take k) = none) :
    feedChunks (byteChunks b) [] = feed [] b := by
  cases b with
  | nil => decide
  | cons x b' =>
    have hmain := feedChunks_eq_feed_join (byteChunks (x :: b')) []
      (by simp [byteChunks])
      (fun k hk0 hklen => by
        rw [List.nil_append, byteChunks_take, byteChunks_join]
        rw [byteChunks_length] at hklen
        refine ⟨hpre k hklen, ?_⟩
        rw [List.length_take]
        have hkm : k < maxExpectedSize := lt_of_lt_of_le hklen hlen
        have := Nat.min_le_left k (x :: b').length
        omega)
    rw [hmain, byteChunks_join]

/-- Witness for the amended C2: a 4-byte frame whose terminator ends at
the last byte is assembled identically byte-by-byte and all at once. -/
theorem bytewise_eq_whole_witness :
    feedChunks (byteChunks [1, 2, 0xff, 0xbb]) [] = feed [] [1, 2, 0xff, 0xbb] :=
  bytewise_eq_whole_of_no_early_decision [1, 2, 0xff, 0xbb]
    (by decide) (by decide)

/-- Claim C5 (amended): a valid frame `header(8) ++ payload(n) ++
terminator` whose terminator pattern occurs nowhere earlier assembles to
`Complete` with exactly that header and payload under every chunking into
non-empty chunks, provided `8 + n + 1 < maxExpectedSize` — without that
bound the size-limit reset can fire mid-frame and destroy the frame (see
the counterexample). -/
theorem valid_frame_any_chunking (h p : List Nat) (cs : List (List Nat))
    (hh : h.length = 8)
    (hfirst : ∀ j, j < 8 + p.length → ¬ isTermAt (h ++ p ++ [0xff, 0xbb]) j)
    (hsize : 8 + p.length + 1 < maxExpectedSize)
    (hjoin : cs.flatten = h ++ p ++ [0xff, 0xbb])
    (hne : ∀ c ∈ cs, c ≠ []) :
    feedChunks cs [] = ([], FrameOutcome.complete h p) := by
  have hlen2 : (h ++ p).length = 8 + p.length := by simp [hh]
  have hblen : (h ++ p ++ [0xff, 0xbb]).length = 8 + p.length + 2 := by
    simp [hh]
    omega
  have hterm_b : findTermIdx (h ++ p ++ [0xff, 0xbb]) = some (8 + p.length) := by
    apply findTermIdx_eq_some_of_least
    · constructor
      · have e : (h ++ p ++ [0xff, 0xbb]).get? (8 + p.length) =
            [0xff, 0xbb].get? ((8 + p.length) - (h ++ p).length) :=
          List.get?_append_right (le_of_eq hlen2)
        rw [e, hlen2, Nat.sub_self]
        rfl
      · have e : (h ++ p ++ [0xff, 0xbb]).get? (8 + p.length + 1) =
            [0xff, 0xbb].get? ((8 + p.length + 1) - (h ++ p).length) :=
          List.get?_append_right (by rw [hlen2]; omega)
        have e2 : (8 + p.length + 1) - (h ++ p).length = 1 := by
          rw [hlen2]; omega
        rw [e, e2]
        rfl
    · exact hfirst
  have hpre : ∀ m, m < 8 + p.length + 2 →
      findTermIdx ((h ++ p ++ [0xff, 0xbb]).take m) = none ∧
      ((h ++ p ++ [0xff, 0xbb]).take m).length < maxExpectedSize := by
    intro m hm
    constructor
    · cases hf : findTermIdx ((h ++ p ++ [0xff, 0xbb]).take m) with
      | none => rfl
      | some j =>
        exfalso
        have hj := findTermIdx_isTermAt _ _ hf
        have hjlt := isTermAt_lt _ _ hj
        rw [List.length_take] at hjlt
        have hjb : isTermAt (h ++ p ++ [0xff, 0xbb]) j := isTermAt_of_take _ m j hj
        refine hfirst j ?_ hjb
        have hmin := Nat.min_le_left m (h ++ p ++ [0xff, 0xbb]).length
        omega
    · rw [List.length_take]
      have hmin := Nat.min_le_left m (h ++ p ++ [0xff, 0xbb]).length
      omega
  have hcs_ne : cs ≠ [] := by
    intro hnil
    have hl := congrArg List.length hjoin
    rw [hnil] at hl
    simp [hh] at hl
    omega
  have hhyp : ∀ k, 0 < k → k < cs.length →
      findTermIdx ([] ++ (cs.take k).flatten) = none ∧
      ([] ++ (cs.take k).flatten).length < maxExpectedSize := by
    intro k hk0 hklen
    rw [List.nil_append]
    have hsplit : (cs.take k).flatten ++ (cs.drop k).flatten
        = h ++ p ++ [0xff, 0xbb] := by
      rw [← List.flatten_append, List.take_append_drop, hjoin]
    have hdpos : 0 < (cs.drop k).flatten.length := by
      cases hd : cs.drop k with
      | nil =>
        exfalso
        have hle : cs.length ≤ k := by
          have := congrArg List.length hd
          simp at this
          omega
        omega
      | cons c rest =>
        have hc_mem : c ∈ cs := by
          have hcmem : c ∈ cs.drop k := by
            rw [hd]; exact List.mem_cons_self c rest
          exact List.mem_of_mem_drop hcmem
        have hcpos : 0 < c.length := List.length_pos.mpr (hne c hc_mem)
        rw [List.flatten_cons, List.length_append]
        omega
    have hmlt : (cs.take k).flatten.length < 8 + p.length + 2 := by
      have hsum : (cs.take k).flatten.length + (cs.drop k).flatten.length
          = 8 + p.length + 2 := by
        rw [← List.length_append, hsplit, hblen]
      omega
    have htake : (cs.take k).flatten
        = (h ++ p ++ [0xff, 0xbb]).take ((cs.take k).flatten.length) := by
      conv_rhs => rw [← hsplit]
      rw [List.take_left]
    rw [htake]
    exact hpre _ hmlt
  have hfinal : feedChunks cs [] = feed [] (h ++ p ++ [0xff, 0xbb]) := by
    have hj := feedChunks_eq_feed_join cs [] hcs_ne hhyp
    rwa [hjoin] at hj
  rw [hfinal,
    feed_complete_of [] _ (8 + p.length) (by rw [List.nil_append]; exact hterm_b),
    List.nil_append]
  have e3 : (h ++ p ++ [0xff, 0xbb]).take 8 = h := by
    rw [List.append_assoc, ← hh]
    exact List.take_left h (p ++ [0xff, 0xbb])
  have e4 : ((h ++ p ++ [0xff, 0xbb]).take (8 + p.length)).drop 8 = p := by
    have ht : (h ++ p ++ [0xff, 0xbb]).take (8 + p.length) = h ++ p := by
      rw [← hlen2]
      exact List.take_left (h ++ p) [0xff, 0xbb]
    rw [ht, ← hh]
    exact List.drop_left h p
  rw [e3, e4]

/-- Witness for the amended C5: an 8-byte header and a 3-byte payload fed
in three uneven chunks assemble to the expected frame. -/
theorem valid_frame_any_chunking_witness :
    feedChunks [[0, 1, 2, 3, 4, 5, 6, 7, 9], [9, 9], [0xff, 0xbb]] [] =
      ([], FrameOutcome.complete [0, 1, 2, 3, 4, 5, 6, 7] [9, 9, 9]) :=
  valid_frame_any_chunking [0, 1, 2, 3, 4, 5, 6, 7] [9, 9, 9]
    [[0, 1, 2, 3, 4, 5, 6, 7, 9], [9, 9], [0xff, 0xbb]]
    (by decide) (by decide) (by decide) (by decide) (by decide)

/-- Claim C5 fails on the code as stated (with no bound tying the payload
to `maxExpectedSize`): the valid frame `c5Header ++ c5Payload ++
terminator` — 8-byte header, 204791-byte payload, first terminator
occurrence exactly at index `8 + payload length` — fed as a 204800-byte
chunk followed by the final terminator byte does not complete: the
size-limit reset fires on the first chunk and the final outcome is
`incomplete`, not `complete c5Header c5Payload`. -/
theorem valid_frame_oversize_cex :
    c5Header.length = 8 ∧
    c5Chunks.flatten = c5Header ++ c5Payload ++ [0xff, 0xbb] ∧
    findTermIdx (c5Header ++ c5Payload ++ [0xff, 0xbb])
      = some (8 + c5Payload.length) ∧
    ([] : List Nat) ∉ c5Chunks ∧
    (feedChunks c5Chunks []).2 = FrameOutcome.incomplete := by
  refine ⟨by simp [c5Header], ?_, ?_, ?_, ?_⟩
  · simp only [c5Chunks, c5Header, c5Payload, List.flatten_cons,
      List.flatten_nil, List.append_nil]
    rw [← List.replicate_add]
    norm_num
  · simp only [c5Header, c5Payload, List.length_replicate]
    have e : (8 : Nat) + 204791 = 204799 := by norm_num
    rw [← List.replicate_add, e]
    exact findTermIdx_replicate_zero_term 204799
  · decide
  · have h1 : feed [] (List.replicate 204799 0 ++ [0xff])
        = ([], FrameOutcome.corrupt) :=
      feed_corrupt_of _ _
        (by rw [List.nil_append]
            exact findTermIdx_replicate_zero_append 204799 [0xff] rfl)
        (by rw [List.nil_append, List.length_append, List.length_replicate]
            norm_num [maxExpectedSize, IMAGE_WIDTH, IMAGE_HEIGHT])
    have h2 : feedChunks c5Chunks [] = feed [] [0xbb] := by
      show feedChunks [List.replicate 204799 0 ++ [0xff], [0xbb]] []
        = feed [] [0xbb]
      simp only [feedChunks]
      rw [h1]
    rw [h2, feed_incomplete_of [] [0xbb] rfl (by decide)]
